import Mathlib

/-!
Verification of the THORWallet `xchainjs-lib` wallet clients.

The development shallowly embeds the deterministic cores of the per-chain
clients: the UTXO fee-calculation and coin-selection routines used by the
Bitcoin and Litecoin clients, the cached address derivation, transaction
history pagination, the Ethereum gas-price conversion, the Binance and
Cosmos client operations, and the fee endpoints.  External effects (HTTP
calls, BIP32 key derivation, signing) are abstracted as function
parameters; everything downstream of them is modelled faithfully.
-/

namespace XchainSpec

/-- Networks supported by every client (`'testnet' | 'mainnet'`). -/
inductive Network where
  | mainnet
  | testnet
deriving DecidableEq, Repr

/-- `BaseAmount` of `xchain-util`: an integer amount together with its
decimal exponent. -/
structure BaseAmount where
  amount : Nat
  decimal : Nat
deriving DecidableEq, Repr

/-- JavaScript string truthiness for an optional string value:
`undefined` and the empty string are falsy, all other strings truthy. -/
def jsTruthy : Option String → Bool
  | none => false
  | some s => s != ""

/-! ## UTXO model (xchain-bitcoin / xchain-litecoin)

`utils.ts` of `xchain-bitcoin` and `xchain-litecoin` (holding `calcFee`,
`buildTx` and `scanUTXOs`) is not part of the sources; only its callers
(`client.ts`) and its export list (`index.ts`) are.  The fee and
coin-selection model below is therefore modelled from the spec. -/

/-- An unspent transaction output as consumed by the selection routine.
`confirmed` records whether its funding transaction is confirmed. -/
structure UTXO where
  hash : String
  index : Nat
  value : Nat
  confirmed : Bool
deriving DecidableEq, Repr

/-- Modelled from the spec: base byte size of an empty transaction, part of
the missing `size_estimate` of `xchain-bitcoin`/`xchain-litecoin` `utils.ts`. -/
def TX_EMPTY_SIZE : Nat := 10

/-- Modelled from the spec: byte size contributed by one input. -/
def TX_INPUT_SIZE : Nat := 148

/-- Modelled from the spec: byte size contributed by one ordinary output. -/
def TX_OUTPUT_SIZE : Nat := 34

/-- Modelled from the spec: base byte size of the extra data (memo) output. -/
def TX_OUTPUT_BASE : Nat := 9

/-- Modelled from the spec: byte size of the extra `OP_RETURN` output
carrying the memo, when a memo is present. -/
def memoOutputBytes : Option String → Nat
  | some m => TX_OUTPUT_BASE + m.length
  | none => 0

/-- Modelled from the spec: estimated byte size of a transaction spending
the given inputs into a recipient output and a change output, plus the
extra memo output when a memo is present ("byte-size-based fee
estimation" of the missing `utils.ts`). -/
def txBytes (inputs : List UTXO) (memo : Option String) : Nat :=
  inputs.foldl (fun acc _ => acc + TX_INPUT_SIZE) (TX_EMPTY_SIZE + 2 * TX_OUTPUT_SIZE)
    + memoOutputBytes memo

/-- Closed form of the byte-size estimate: `size_estimate(inputs, outputs)`
for `nInputs` inputs, `nOutputs` ordinary outputs and an optional memo
output. -/
def sizeEstimate (nInputs nOutputs : Nat) (memo : Option String) : Nat :=
  TX_EMPTY_SIZE + nInputs * TX_INPUT_SIZE + nOutputs * TX_OUTPUT_SIZE + memoOutputBytes memo

/-- Modelled from the spec: "compute fee = size_estimate(inputs,outputs) ×
feeRate" — the fee charged for a transaction with the given inputs, the
two standard outputs (recipient and change) and an optional memo output. -/
def getFee (inputs : List UTXO) (feeRate : Nat) (memo : Option String) : Nat :=
  txBytes inputs memo * feeRate

/-- Modelled from the spec: `calcFee` of the missing
`xchain-bitcoin`/`xchain-litecoin` `utils.ts`, called by the clients at
`client.ts` (`calcFee(feeRate, memo)`): the fee of a transaction with no
inputs yet, the two standard outputs and the optional memo output. -/
def calcFee (feeRate : Nat) (memo : Option String) : Nat :=
  getFee [] feeRate memo

/-- Modelled from the spec: "greedily select UTXOs until target+fee
covered".  Walks the candidate list in order, keeping the running
selection and its accumulated value, and stops as soon as the accumulated
value covers the send amount plus the fee for the current selection. -/
def accumulate (amount feeRate : Nat) (memo : Option String) :
    List UTXO → List UTXO → Nat → Option (List UTXO × Nat)
  | [], selected, total =>
      if amount + getFee selected feeRate memo ≤ total then some (selected, total) else none
  | u :: rest, selected, total =>
      if amount + getFee selected feeRate memo ≤ total then some (selected, total)
      else accumulate amount feeRate memo rest (selected ++ [u]) (total + u.value)

/-- The result of a successful `buildTx`: the selected inputs, the fee
paid, and the value of the change output. -/
structure BuiltTx where
  inputs : List UTXO
  fee : Nat
  change : Nat
deriving DecidableEq, Repr

/-- Modelled from the spec: `buildTx` of the missing
`xchain-bitcoin`/`xchain-litecoin` `utils.ts` ("sum inputs, greedily
select UTXOs until target+fee covered, compute fee =
size_estimate(inputs,outputs) × feeRate, construct change output").  When
`spendPendingUTXO` is false only confirmed UTXOs are candidates. -/
def buildTx (utxos : List UTXO) (amount feeRate : Nat) (memo : Option String)
    (spendPendingUTXO : Bool) : Option BuiltTx :=
  let source := if spendPendingUTXO then utxos else utxos.filter (·.confirmed)
  match accumulate amount feeRate memo source [] 0 with
  | none => none
  | some (sel, total) =>
      let fee := getFee sel feeRate memo
      some { inputs := sel, fee := fee, change := total - amount - fee }

/-- The `spendPendingUTXO` flag computed by the Bitcoin client `transfer`
(`client.ts`): `params.memo ? false : true`. -/
def btcSpendPendingUTXO (memo : Option String) : Bool :=
  if jsTruthy memo then false else true

/-- The coin selection performed by the Bitcoin client `transfer`
(`client.ts`): it forwards the transfer parameters to `buildTx` together
with the `spendPendingUTXO` flag derived from the memo. -/
def btcTransferBuild (utxos : List UTXO) (amount feeRate : Nat) (memo : Option String) :
    Option BuiltTx :=
  buildTx utxos amount feeRate memo (btcSpendPendingUTXO memo)

/-! ## Cached address derivation (xchain-bitcoin / xchain-litecoin `getAddress`) -/

/-- The state of a Bitcoin or Litecoin client relevant to `getAddress`:
the mnemonic phrase, the network, and the address cache
(`addrCache: Record<string, Record<number, string>>`), modelled as a
total map into `Option`. -/
structure UtxoClientState where
  phrase : String
  network : Network
  addrCache : String → Int → Option String

/-- The observable outcome of one `getAddress` call: the returned address,
the client state afterwards, and whether key derivation ran. -/
structure GetAddressOutcome where
  address : String
  state : UtxoClientState
  derived : Bool

/-- `getAddress` of the Bitcoin client (`xchain-bitcoin/src/client.ts`).
`d` abstracts the BIP32/P2WPKH derivation (`getBtcKeys` plus
`Bitcoin.payments.p2wpkh`); a derivation failure is modelled by `d`
returning the empty string (`if (!address) throw ...`).  The index guard
runs first, then the phrase guard, then the cache lookup, then
derivation followed by the cache store. -/
def btcGetAddress (d : Network → String → Int → String) (s : UtxoClientState)
    (index : Int) : Except String GetAddressOutcome :=
  if index < 0 then .error "index must be greater than zero"
  else if s.phrase != "" then
    let cached := (s.addrCache s.phrase index).getD ""
    if cached != "" then .ok ⟨cached, s, false⟩
    else
      let address := d s.network s.phrase index
      if address == "" then .error "Address not defined"
      else
        .ok ⟨address,
          { s with addrCache := fun p j =>
              if p = s.phrase ∧ j = index then some address else s.addrCache p j },
          true⟩
  else .error "Phrase must be provided"

/-- `getAddress` of the Litecoin client (`xchain-litecoin/src/client.ts`);
its body is line-for-line the same as the Bitcoin one, with `d`
abstracting `getLtcKeys` plus `Litecoin.payments.p2wpkh`. -/
def ltcGetAddress (d : Network → String → Int → String) (s : UtxoClientState)
    (index : Int) : Except String GetAddressOutcome :=
  if index < 0 then .error "index must be greater than zero"
  else if s.phrase != "" then
    let cached := (s.addrCache s.phrase index).getD ""
    if cached != "" then .ok ⟨cached, s, false⟩
    else
      let address := d s.network s.phrase index
      if address == "" then .error "Address not defined"
      else
        .ok ⟨address,
          { s with addrCache := fun p j =>
              if p = s.phrase ∧ j = index then some address else s.addrCache p j },
          true⟩
  else .error "Phrase must be provided"

/-! ## Transaction history pagination (xchain-bitcoin `getTransactions`) -/

/-- The pagination slice of `TxHistoryParams`: both fields optional. -/
structure TxHistoryPage where
  offset : Option Nat
  limit : Option Nat
deriving DecidableEq, Repr

/-- `getTransactions` of the Bitcoin client (`client.ts`), restricted to
its deterministic pagination core.  `txs` is the full transaction list
sochain reports for the address; the result is the `total` and the page
of transactions.  Defaults mirror the source: `params?.offset ?? 0` and
`params?.limit || 10` (so an explicit limit of `0` also falls back to
`10`), and the page is
`response.txs.filter((_, index) => offset <= index && index < offset + limit)`. -/
def btcGetTransactions (txs : List String) (params : Option TxHistoryPage) :
    Nat × List String :=
  let offset := match params with
    | none => 0
    | some p => p.offset.getD 0
  let limit := match params with
    | none => 10
    | some p => match p.limit with
      | none => 10
      | some l => if l = 0 then 10 else l
  (txs.length,
    (txs.enum.filter (fun p => decide (offset ≤ p.1 ∧ p.1 < offset + limit))).map Prod.snd)

/-- The page of transactions the claim predicts for effective values
`offset` and `limit`: exactly the transactions whose index `i` in the
full list satisfies `offset ≤ i < offset + limit`. -/
def claimedPage (txs : List String) (offset limit : Nat) : List String :=
  (txs.enum.filter (fun p => decide (offset ≤ p.1 ∧ p.1 < offset + limit))).map Prod.snd

/-- The effective offset used by `btcGetTransactions`
(`params?.offset ?? 0`). -/
def effOffset (params : Option TxHistoryPage) : Nat :=
  match params with
  | none => 0
  | some p => p.offset.getD 0

/-- The effective limit used by `btcGetTransactions`
(`params?.limit || 10`: an omitted or zero limit becomes 10). -/
def effLimit (params : Option TxHistoryPage) : Nat :=
  match params with
  | none => 10
  | some p => match p.limit with
    | none => 10
    | some l => if l = 0 then 10 else l

/-! ## Ethereum gas price estimation (`estimate-gas-prices.ts`) -/

/-- `ETH_DECIMAL` of `xchain-ethereum/src/utils.ts`. -/
def ETH_DECIMAL : Nat := 18

/-- The etherscan gas-oracle response consumed by `estimateGasPrices`;
the three prices are whole numbers of Gwei. -/
structure GasOracleResponse where
  SafeGasPrice : Nat
  ProposeGasPrice : Nat
  FastGasPrice : Nat
deriving DecidableEq, Repr

/-- `GasPrices` of `xchain-ethereum`: `average`, `fast` and `fastest`
amounts in Wei. -/
structure GasPrices where
  average : BaseAmount
  fast : BaseAmount
  fastest : BaseAmount
deriving DecidableEq, Repr

/-- `parseUnits(x, 'gwei')` of `ethers`, restricted to whole Gwei values:
the exact conversion from Gwei to Wei. -/
def parseUnitsGwei (gwei : Nat) : Nat := gwei * 10 ^ 9

/-- `estimateGasPrices` of `xchain-ethereum/src/estimate-gas-prices.ts`:
converts the oracle prices from Gwei to Wei and wraps them as
`baseAmount(_, ETH_DECIMAL)`. -/
def estimateGasPrices (response : GasOracleResponse) : GasPrices :=
  { average := ⟨parseUnitsGwei response.SafeGasPrice, ETH_DECIMAL⟩
    fast := ⟨parseUnitsGwei response.ProposeGasPrice, ETH_DECIMAL⟩
    fastest := ⟨parseUnitsGwei response.FastGasPrice, ETH_DECIMAL⟩ }

/-! ## Binance client (unnamed `client.ts` and `get-address.ts`) -/

/-- Rendering of a `Network` as the string used inside the Binance
address cache key. -/
def bnbNetworkId : Network → String
  | .mainnet => "mainnet"
  | .testnet => "testnet"

/-- `getCacheKey` of the Binance `get-address.ts`:
`[network, phrase, index].join('-')`. -/
def bnbGetCacheKey (network : Network) (phrase : String) (index : Nat) : String :=
  String.intercalate "-" [bnbNetworkId network, phrase, toString index]

/-- Module-level `getAddress` of the Binance `get-address.ts`: consult the
cache under the joined key, otherwise derive (abstracted by `d`, which
stands for `getAddressFromPrivateKey(getPrivateKeyFromMnemonic(..))`) and
store.  Returns the address and the cache afterwards. -/
def bnbGetAddress (d : Network → String → Nat → String) (network : Network)
    (phrase : String) (index : Nat) (cache : String → Option String) :
    String × (String → Option String) :=
  let key := bnbGetCacheKey network phrase index
  let cached := (cache key).getD ""
  if cached != "" then (cached, cache)
  else
    let address := d network phrase index
    (address, fun k => if k = key then some address else cache k)

/-- The arguments the Binance client `transfer` hands to the SDK: the
index used to derive the signing key, and the sender address passed as
first argument of `bncClient.transfer`. -/
structure BnbTransferCall where
  signingKeyIndex : Nat
  sender : String
  recipient : String
  amount : Nat
  memo : Option String
deriving DecidableEq, Repr

/-- `transfer` of the Binance client: it derives the signing key at
`walletIndex || 0` (`getPrivateKey` throws `"Phrase not set"` when the
phrase is empty) but passes `getAddress({ index: 0, ... })` as the sender
to `bncClient.transfer`.  Returns the SDK call made and the address cache
afterwards. -/
def bnbTransfer (d : Network → String → Nat → String) (network : Network)
    (phrase : String) (cache : String → Option String) (walletIndex : Option Nat)
    (recipient : String) (amount : Nat) (memo : Option String) :
    Except String (BnbTransferCall × (String → Option String)) :=
  if phrase == "" then .error "Phrase not set"
  else
    let keyIndex := walletIndex.getD 0
    let sender := bnbGetAddress d network phrase 0 cache
    .ok (⟨keyIndex, sender.1, recipient, amount, memo⟩, sender.2)

/-! ## Cosmos client (unnamed cosmos `client.ts`) -/

/-- `Asset` of `xchain-util`. -/
structure Asset where
  chain : String
  symbol : String
  ticker : String
deriving DecidableEq, Repr

/-- `assetToString` of `xchain-util`: `CHAIN.SYMBOL`. -/
def assetToString (a : Asset) : String := a.chain ++ "." ++ a.symbol

/-- `AssetAtom` of the Cosmos package types (`Chain.Cosmos` is `GAIA`). -/
def AssetAtom : Asset := ⟨"GAIA", "ATOM", "ATOM"⟩

/-- `AssetMuon` of the Cosmos package types. -/
def AssetMuon : Asset := ⟨"GAIA", "MUON", "MUON"⟩

/-- Modelled from the spec: `DECIMAL` of the missing Cosmos `util.ts`
(the decimal exponent used for Cosmos base amounts). -/
def COSMOS_DECIMAL : Nat := 6

/-- A raw balance entry as reported by the Cosmos SDK client:
a denomination and an amount. -/
structure CosmosRawBalance where
  denom : String
  amount : Nat
deriving DecidableEq, Repr

/-- One entry of the `Balance[]` a client returns. -/
structure Balance where
  asset : Asset
  amount : BaseAmount
deriving DecidableEq, Repr

/-- `getMainAsset` of the Cosmos client: ATOM on mainnet, MUON on
testnet. -/
def getMainAsset : Network → Asset
  | .mainnet => AssetAtom
  | .testnet => AssetMuon

/-- `getBalance` of the Cosmos client.  `getAsset` abstracts the
denomination lookup of the missing Cosmos `util.ts` (`null` becomes
`none`); `balances` is what the SDK reports.  Mirrors the source: map
each raw balance to `(denom && getAsset(denom)) || mainAsset`, replace an
empty list by a single zero balance of the main asset, and keep only
entries matching the optional assets filter. -/
def cosmosGetBalance (network : Network) (getAsset : String → Option Asset)
    (balances : List CosmosRawBalance) (assets : Option (List Asset)) : List Balance :=
  let mainAsset := getMainAsset network
  let assetBalances := balances.map (fun b =>
    { asset := if b.denom != "" then (getAsset b.denom).getD mainAsset else mainAsset
      amount := ⟨b.amount, COSMOS_DECIMAL⟩ : Balance })
  let assetBalances2 :=
    if assetBalances.length = 0 then
      [{ asset := mainAsset, amount := ⟨0, COSMOS_DECIMAL⟩ : Balance }]
    else assetBalances
  assetBalances2.filter (fun bal =>
    match assets with
    | none => true
    | some as => (as.filter (fun a => assetToString bal.asset == assetToString a)).length != 0)

/-! ## Fee endpoints (`getFees` of the Cosmos, THORChain and Binance clients) -/

/-- `Fees` of `xchain-client`: a fee type tag plus the three fee options. -/
structure Fees where
  type : String
  average : BaseAmount
  fast : BaseAmount
  fastest : BaseAmount
deriving DecidableEq, Repr

/-- `getFees` of the Cosmos client: `throw new Error('Method not
implemented.')`, whatever the parameters. -/
def cosmosGetFees (_params : Option Unit) : Except String Fees :=
  .error "Method not implemented."

/-- `getFees` of the THORChain client (unnamed thorchain `client.ts`):
also `throw new Error('Method not implemented.')`. -/
def thorchainGetFees (_params : Option Unit) : Except String Fees :=
  .error "Method not implemented."

/-- `fixed_fee_params` of a Binance DEX transfer fee. -/
structure FixedFeeParams where
  fee : Nat
deriving DecidableEq, Repr

/-- A Binance DEX transfer fee entry. -/
structure TransferFee where
  fixed_fee_params : FixedFeeParams
  multi_transfer_fee : Nat
deriving DecidableEq, Repr

/-- One entry of the Binance `/api/v1/fees` response: either a transfer
fee or some other fee kind. -/
inductive BinanceFee where
  | transferEntry (t : TransferFee)
  | other
deriving DecidableEq, Repr

/-- `isTransferFee` of the Binance `util.ts`: the type guard selecting
transfer fee entries. -/
def isTransferFee : BinanceFee → Bool
  | .transferEntry _ => true
  | .other => false

/-- `getTransferFee` of the Binance client: take the first entry of
`feesArray.filter(isTransferFee)` and fail when there is none. -/
def bnbGetTransferFee (feesArray : List BinanceFee) : Except String TransferFee :=
  match (feesArray.filter isTransferFee).head? with
  | some (.transferEntry t) => .ok t
  | _ => .error "failed to get transfer fees"

/-- `getFees` of the Binance client: wrap the single-transfer fixed fee
as a flat (`'base'`) fee for all three fee options
(`baseAmount(transferFee.fixed_fee_params.fee)`, default decimal 8). -/
def bnbGetFees (feesArray : List BinanceFee) : Except String Fees :=
  match bnbGetTransferFee feesArray with
  | .error e => .error e
  | .ok transferFee =>
      let singleTxFee : BaseAmount := ⟨transferFee.fixed_fee_params.fee, 8⟩
      .ok { type := "base", average := singleTxFee, fast := singleTxFee, fastest := singleTxFee }

/-! ## Theorems -/

/-- Folding the per-input byte cost over a list adds exactly
`length * TX_INPUT_SIZE` to the accumulator. -/
theorem foldl_input_bytes (l : List UTXO) (b : Nat) :
    l.foldl (fun acc _ => acc + TX_INPUT_SIZE) b = b + l.length * TX_INPUT_SIZE := by
  induction l generalizing b with
  | nil => simp
  | cons u rest ih =>
      rw [List.foldl_cons, ih]
      simp [Nat.mul_succ, Nat.succ_mul]
      omega

/-- Claim C1: for every fee rate `r` and optional memo `m`, the UTXO
clients' fee calculation (`calcFee`, used by Bitcoin and Litecoin)
returns the estimated transaction byte size for the given inputs and
outputs — two standard outputs, plus the extra memo output when `m` is
present — multiplied by `r`; the underlying `getFee` does the same for
any input list. -/
theorem calcFee_is_size_times_rate (inputs : List UTXO) (feeRate : Nat)
    (memo : Option String) :
    getFee inputs feeRate memo = sizeEstimate inputs.length 2 memo * feeRate ∧
    calcFee feeRate memo = sizeEstimate 0 2 memo * feeRate := by
  constructor
  · unfold getFee txBytes sizeEstimate
    rw [foldl_input_bytes]
    ring_nf
  · unfold calcFee getFee txBytes sizeEstimate
    simp

/-- Claim C7: the Ethereum `estimateGasPrices` maps the oracle's
`SafeGasPrice`, `ProposeGasPrice` and `FastGasPrice` to `average`, `fast`
and `fastest` respectively, each converted exactly from Gwei to Wei
(multiplied by `10 ^ 9`) and carrying `ETH_DECIMAL`. -/
theorem estimateGasPrices_gwei_to_wei (r : GasOracleResponse) :
    (estimateGasPrices r).average.amount = r.SafeGasPrice * 10 ^ 9 ∧
    (estimateGasPrices r).fast.amount = r.ProposeGasPrice * 10 ^ 9 ∧
    (estimateGasPrices r).fastest.amount = r.FastGasPrice * 10 ^ 9 ∧
    (estimateGasPrices r).average.decimal = ETH_DECIMAL ∧
    (estimateGasPrices r).fast.decimal = ETH_DECIMAL ∧
    (estimateGasPrices r).fastest.decimal = ETH_DECIMAL := by
  refine ⟨rfl, rfl, rfl, rfl, rfl, rfl⟩

/-- Claim C4 counterexample: the Cosmos client's `getFees` (and likewise
the THORChain client's) fails unconditionally with `Method not
implemented.` — already at the default (absent) parameters — so not every
client turns `getFees` into a fee estimate. -/
theorem cosmos_thorchain_getFees_throw :
    cosmosGetFees none = Except.error "Method not implemented." ∧
    thorchainGetFees none = Except.error "Method not implemented." :=
  ⟨rfl, rfl⟩

/-- Claim C4 (amended): the Binance client's `getFees` returns a flat
(`'base'`) fee estimate built from the DEX transfer fee whenever the fee
endpoint reports one, while the Cosmos and THORChain clients' `getFees`
throw `Method not implemented.` for every parameter value. -/
theorem getFees_binance_ok_cosmos_thorchain_fail (p : Option Unit)
    (feesArray : List BinanceFee) (t : TransferFee)
    (h : (feesArray.filter isTransferFee).head? = some (.transferEntry t)) :
    cosmosGetFees p = Except.error "Method not implemented." ∧
    thorchainGetFees p = Except.error "Method not implemented." ∧
    bnbGetFees feesArray =
      Except.ok ⟨"base", ⟨t.fixed_fee_params.fee, 8⟩, ⟨t.fixed_fee_params.fee, 8⟩,
        ⟨t.fixed_fee_params.fee, 8⟩⟩ := by
  refine ⟨rfl, rfl, ?_⟩
  unfold bnbGetFees bnbGetTransferFee
  rw [h]

/-- Witness for the amended claim C4 at a concrete fee response. -/
theorem getFees_binance_ok_cosmos_thorchain_fail_witness :
    (([BinanceFee.other, .transferEntry ⟨⟨37500⟩, 30000⟩] :
        List BinanceFee).filter isTransferFee).head? = some (.transferEntry ⟨⟨37500⟩, 30000⟩) ∧
    bnbGetFees [BinanceFee.other, .transferEntry ⟨⟨37500⟩, 30000⟩] =
      Except.ok ⟨"base", ⟨37500, 8⟩, ⟨37500, 8⟩, ⟨37500, 8⟩⟩ :=
  ⟨by decide,
    (getFees_binance_ok_cosmos_thorchain_fail none
      [BinanceFee.other, .transferEntry ⟨⟨37500⟩, 30000⟩] ⟨⟨37500⟩, 30000⟩ (by decide)).2.2⟩

/-- Claim C8: the Binance client's `transfer` signs with the key derived
at `walletIndex || 0` but always passes the address derived at index `0`
as the sender, so the sender address is independent of `walletIndex`:
two runs differing only in `walletIndex` make SDK calls with equal sender
addresses. -/
theorem bnbTransfer_sender_ignores_walletIndex
    (d : Network → String → Nat → String) (network : Network) (phrase : String)
    (cache : String → Option String) (w w1 w2 : Option Nat)
    (recipient : String) (amount : Nat) (memo : Option String)
    (hp : phrase ≠ "") :
    (bnbTransfer d network phrase cache w1 recipient amount memo).map
        (fun e => e.1.sender) =
      (bnbTransfer d network phrase cache w2 recipient amount memo).map
        (fun e => e.1.sender) ∧
    bnbTransfer d network phrase cache w recipient amount memo =
      Except.ok (⟨w.getD 0, (bnbGetAddress d network phrase 0 cache).1, recipient,
        amount, memo⟩, (bnbGetAddress d network phrase 0 cache).2) := by
  have hb : (phrase == "") = false := by
    simp [String.ext_iff] at *
    exact hp
  constructor
  · unfold bnbTransfer
    rw [hb]
    simp [Except.map]
  · unfold bnbTransfer
    rw [hb]
    simp

/-- Witness for claim C8 at concrete inputs: wallet indices 5 and 0 give
the same sender, namely the address derived at index 0. -/
theorem bnbTransfer_sender_ignores_walletIndex_witness :
    ("phrase word list" ≠ "") ∧
    (bnbTransfer (fun _ _ i => "bnb1addr" ++ toString i) Network.mainnet
        "phrase word list" (fun _ => none) (some 5) "bnb1rcpt" 100 none).map
        (fun e => e.1.sender) =
      (bnbTransfer (fun _ _ i => "bnb1addr" ++ toString i) Network.mainnet
        "phrase word list" (fun _ => none) (some 0) "bnb1rcpt" 100 none).map
        (fun e => e.1.sender) :=
  ⟨by decide,
    (bnbTransfer_sender_ignores_walletIndex (fun _ _ i => "bnb1addr" ++ toString i)
      Network.mainnet "phrase word list" (fun _ => none) (some 5) (some 5) (some 0)
      "bnb1rcpt" 100 none (by decide)).1⟩

/-- A successful `accumulate` stops only once the accumulated value
covers the send amount plus the fee for the final selection. -/
theorem accumulate_covers (amount feeRate : Nat) (memo : Option String) :
    ∀ (remaining selected : List UTXO) (total : Nat) (sel : List UTXO) (tot : Nat),
      accumulate amount feeRate memo remaining selected total = some (sel, tot) →
      amount + getFee sel feeRate memo ≤ tot := by
  intro remaining
  induction remaining with
  | nil =>
      intro selected total sel tot h
      simp only [accumulate] at h
      split at h
      · simp only [Option.some.injEq, Prod.mk.injEq] at h
        obtain ⟨rfl, rfl⟩ := h
        assumption
      · exact absurd h (by simp)
  | cons u rest ih =>
      intro selected total sel tot h
      simp only [accumulate] at h
      split at h
      · simp only [Option.some.injEq, Prod.mk.injEq] at h
        obtain ⟨rfl, rfl⟩ := h
        assumption
      · exact ih _ _ _ _ h

/-- The accumulated value of a successful `accumulate` is the sum of the
values of the selected UTXOs, relative to the starting accumulator. -/
theorem accumulate_total (amount feeRate : Nat) (memo : Option String) :
    ∀ (remaining selected : List UTXO) (total : Nat) (sel : List UTXO) (tot : Nat),
      accumulate amount feeRate memo remaining selected total = some (sel, tot) →
      tot + (selected.map (·.value)).sum = total + (sel.map (·.value)).sum := by
  intro remaining
  induction remaining with
  | nil =>
      intro selected total sel tot h
      simp only [accumulate] at h
      split at h
      · simp only [Option.some.injEq, Prod.mk.injEq] at h
        obtain ⟨rfl, rfl⟩ := h
        ring
      · exact absurd h (by simp)
  | cons u rest ih =>
      intro selected total sel tot h
      simp only [accumulate] at h
      split at h
      · simp only [Option.some.injEq, Prod.mk.injEq] at h
        obtain ⟨rfl, rfl⟩ := h
        ring
      · have := ih _ _ _ _ h
        simp only [List.map_append, List.sum_append, List.map_cons, List.map_nil,
          List.sum_cons, List.sum_nil] at this
        omega

/-- The selection of a successful `accumulate` extends the starting
selection by an initial segment of the remaining candidates. -/
theorem accumulate_initial_segment (amount feeRate : Nat) (memo : Option String) :
    ∀ (remaining selected : List UTXO) (total : Nat) (sel : List UTXO) (tot : Nat),
      accumulate amount feeRate memo remaining selected total = some (sel, tot) →
      ∃ used rest2, sel = selected ++ used ∧ used ++ rest2 = remaining := by
  intro remaining
  induction remaining with
  | nil =>
      intro selected total sel tot h
      simp only [accumulate] at h
      split at h
      · simp only [Option.some.injEq, Prod.mk.injEq] at h
        obtain ⟨rfl, rfl⟩ := h
        exact ⟨[], [], by simp, rfl⟩
      · exact absurd h (by simp)
  | cons u rest ih =>
      intro selected total sel tot h
      simp only [accumulate] at h
      split at h
      · simp only [Option.some.injEq, Prod.mk.injEq] at h
        obtain ⟨rfl, rfl⟩ := h
        exact ⟨[], u :: rest, by simp, rfl⟩
      · obtain ⟨used, rest2, h1, h2⟩ := ih _ _ _ _ h
        exact ⟨u :: used, rest2, by simp [h1], by simp [h2]⟩

/-- Specification of a successful `buildTx`: arithmetic identity between
inputs, amount, change and fee, and the initial-segment shape of the
selection. -/
theorem buildTx_spec (utxos : List UTXO) (amount feeRate : Nat)
    (memo : Option String) (spendPendingUTXO : Bool) (t : BuiltTx)
    (h : buildTx utxos amount feeRate memo spendPendingUTXO = some t) :
    (t.inputs.map (·.value)).sum = amount + t.change + t.fee ∧
    amount + t.change + t.fee ≤ (t.inputs.map (·.value)).sum ∧
    t.fee = getFee t.inputs feeRate memo ∧
    ∃ rest, t.inputs ++ rest =
      (if spendPendingUTXO then utxos else utxos.filter (·.confirmed)) := by
  simp only [buildTx] at h
  split at h
  · exact absurd h (by simp)
  · rename_i sel tot heq
    simp only [Option.some.injEq] at h
    subst h
    have hcov := accumulate_covers amount feeRate memo _ _ _ _ _ heq
    have htot := accumulate_total amount feeRate memo _ _ _ _ _ heq
    have hseg := accumulate_initial_segment amount feeRate memo _ _ _ _ _ heq
    simp only [List.map_nil, List.sum_nil] at htot
    refine ⟨by simp; omega, by simp; omega, rfl, ?_⟩
    obtain ⟨used, rest2, h1, h2⟩ := hseg
    exact ⟨rest2, by simpa [h1] using h2⟩

/-- Claim C2: whenever `buildTx` succeeds, the selected inputs are an
initial segment of the candidate list (greedy selection in order) and
their summed value covers — in fact equals — the send amount plus the
change output plus the computed fee. -/
theorem buildTx_covers_target (utxos : List UTXO) (amount feeRate : Nat)
    (memo : Option String) (spendPendingUTXO : Bool) (t : BuiltTx)
    (h : buildTx utxos amount feeRate memo spendPendingUTXO = some t) :
    (t.inputs.map (·.value)).sum = amount + t.change + t.fee ∧
    amount + t.change + t.fee ≤ (t.inputs.map (·.value)).sum ∧
    t.fee = getFee t.inputs feeRate memo ∧
    ∃ rest, t.inputs ++ rest =
      (if spendPendingUTXO then utxos else utxos.filter (·.confirmed)) :=
  buildTx_spec utxos amount feeRate memo spendPendingUTXO t h

/-- Witness for claim C2 at a concrete UTXO list: one confirmed UTXO of
2000000 covers a 10000 send at fee rate 2. -/
theorem buildTx_covers_target_witness :
    buildTx [⟨"tx0", 1, 2000000, true⟩] 10000 2 none true =
      some ⟨[⟨"tx0", 1, 2000000, true⟩], 452, 1989548⟩ ∧
    10000 + (⟨[⟨"tx0", 1, 2000000, true⟩], 452, 1989548⟩ : BuiltTx).change +
        (⟨[⟨"tx0", 1, 2000000, true⟩], 452, 1989548⟩ : BuiltTx).fee ≤
      (((⟨[⟨"tx0", 1, 2000000, true⟩], 452, 1989548⟩ : BuiltTx).inputs.map (·.value)).sum) :=
  ⟨by decide,
    (buildTx_covers_target [⟨"tx0", 1, 2000000, true⟩] 10000 2 none true
      ⟨[⟨"tx0", 1, 2000000, true⟩], 452, 1989548⟩ (by decide)).2.1⟩

/-- Claim C3 counterexample: a transfer whose memo is the empty string —
a provided memo — is built with `spendPendingUTXO = true`
(`params.memo ? false : true` treats `''` as falsy) and does select an
unconfirmed UTXO as input. -/
theorem btcTransfer_empty_memo_spends_pending :
    btcSpendPendingUTXO (some "") = true ∧
    btcTransferBuild [⟨"pending", 0, 2000000, false⟩] 10000 1 (some "") =
      some ⟨[⟨"pending", 0, 2000000, false⟩], 235, 1989765⟩ ∧
    (⟨"pending", 0, 2000000, false⟩ : UTXO).confirmed = false := by
  refine ⟨rfl, by decide, rfl⟩

/-- Claim C3 (amended): a Bitcoin transfer with a non-empty memo is built
with `spendPendingUTXO = false` and only confirmed UTXOs can be selected
as inputs; a transfer without a memo — or with an empty memo, which
`params.memo ? false : true` treats as absent — is built with
`spendPendingUTXO = true`. -/
theorem btcTransfer_memo_excludes_pending (utxos : List UTXO) (amount feeRate : Nat)
    (m : String) (t : BuiltTx) :
    btcSpendPendingUTXO none = true ∧
    (m ≠ "" → btcSpendPendingUTXO (some m) = false) ∧
    (m ≠ "" → btcTransferBuild utxos amount feeRate (some m) = some t →
      ∀ u ∈ t.inputs, u.confirmed = true) := by
  refine ⟨rfl, ?_, ?_⟩
  · intro hm
    simp [btcSpendPendingUTXO, jsTruthy, hm]
  · intro hm h u hu
    have hflag : btcSpendPendingUTXO (some m) = false := by
      simp [btcSpendPendingUTXO, jsTruthy, hm]
    rw [btcTransferBuild, hflag] at h
    obtain ⟨-, -, -, rest, hseg⟩ := buildTx_spec _ _ _ _ _ _ h
    simp only [if_neg Bool.false_ne_true] at hseg
    have : u ∈ utxos.filter (·.confirmed) := by
      rw [← hseg]
      exact List.mem_append_left _ hu
    simpa using (List.mem_filter.mp this).2

/-- Witness for the amended claim C3: a transfer with memo `"MEMO"` over
one confirmed UTXO selects only confirmed inputs. -/
theorem btcTransfer_memo_excludes_pending_witness :
    ("MEMO" ≠ "") ∧
    btcTransferBuild [⟨"conf", 0, 2000000, true⟩] 10000 1 (some "MEMO") =
      some ⟨[⟨"conf", 0, 2000000, true⟩], 239, 1989761⟩ ∧
    ∀ u ∈ (⟨[⟨"conf", 0, 2000000, true⟩], 239, 1989761⟩ : BuiltTx).inputs,
      u.confirmed = true :=
  ⟨by decide, by decide,
    (btcTransfer_memo_excludes_pending [⟨"conf", 0, 2000000, true⟩] 10000 1 "MEMO"
      ⟨[⟨"conf", 0, 2000000, true⟩], 239, 1989761⟩).2.2 (by decide) (by decide)⟩

/-- Claim C5: `getAddress` caching on the Bitcoin client.  After any
successful call, repeating the call with the same arguments returns the
very same address, leaves the state unchanged and runs no derivation;
and a call on a fresh `(phrase, index)` cache key derives and stores the
address under that key. -/
theorem btcGetAddress_cached (d : Network → String → Int → String)
    (s : UtxoClientState) (index : Int) (r : GetAddressOutcome)
    (h : btcGetAddress d s index = .ok r) :
    btcGetAddress d r.state index = .ok ⟨r.address, r.state, false⟩ ∧
    (s.addrCache s.phrase index = none →
      r.derived = true ∧ r.state.addrCache s.phrase index = some r.address) := by
  simp only [btcGetAddress] at h
  split at h
  · exact absurd h (by simp)
  · rename_i hneg
    split at h
    · rename_i hp
      split at h
      · rename_i hc
        simp only [Except.ok.injEq] at h
        subst h
        constructor
        · simp only [btcGetAddress, if_neg hneg, hp, if_pos, hc, if_true]
        · intro hnone
          rw [hnone] at hc
          simp at hc
      · rename_i hc
        split at h
        · exact absurd h (by simp)
        · rename_i hd
          simp only [Except.ok.injEq] at h
          subst h
          refine ⟨?_, fun _ => ⟨rfl, by simp⟩⟩
          simp only [btcGetAddress, if_neg hneg]
          rw [if_pos hp]
          simp only [and_self, if_true, Option.getD_some]
          rw [if_pos]
          simp only [bne_iff_ne, ne_eq]
          simpa using hd
    · exact absurd h (by simp)

/-- Witness for claim C5: a concrete first call on an empty cache derives
and stores, and the repeat call returns the cached address without
deriving. -/
theorem btcGetAddress_cached_witness :
    btcGetAddress (fun _ _ _ => "bc1qaddr") ⟨"ph", Network.mainnet, fun _ _ => none⟩ 0 =
      .ok ⟨"bc1qaddr",
        { phrase := "ph", network := Network.mainnet,
          addrCache := fun p j => if p = "ph" ∧ j = 0 then some "bc1qaddr" else none },
        true⟩ ∧
    btcGetAddress (fun _ _ _ => "bc1qaddr")
        { phrase := "ph", network := Network.mainnet,
          addrCache := fun p j => if p = "ph" ∧ j = 0 then some "bc1qaddr" else none } 0 =
      .ok ⟨"bc1qaddr",
        { phrase := "ph", network := Network.mainnet,
          addrCache := fun p j => if p = "ph" ∧ j = 0 then some "bc1qaddr" else none },
        false⟩ :=
  ⟨rfl,
    (btcGetAddress_cached (fun _ _ _ => "bc1qaddr")
      ⟨"ph", Network.mainnet, fun _ _ => none⟩ 0
      ⟨"bc1qaddr",
        { phrase := "ph", network := Network.mainnet,
          addrCache := fun p j => if p = "ph" ∧ j = 0 then some "bc1qaddr" else none },
        true⟩ rfl).1⟩

/-- Claim C10: for every index strictly below zero the Bitcoin and
Litecoin `getAddress` fail with `index must be greater than zero` —
whatever the cache contents and whatever the derivation function, i.e.
before consulting the cache or deriving any key — while index 0 is
accepted and produces an address whenever a phrase is set and derivation
succeeds. -/
theorem getAddress_negative_index_rejected (d : Network → String → Int → String)
    (s : UtxoClientState) (i : Int) :
    (i < 0 →
      btcGetAddress d s i = .error "index must be greater than zero" ∧
      ltcGetAddress d s i = .error "index must be greater than zero") ∧
    (s.phrase ≠ "" → d s.network s.phrase 0 ≠ "" →
      (∃ r, btcGetAddress d s 0 = .ok r) ∧ (∃ r, ltcGetAddress d s 0 = .ok r)) := by
  constructor
  · intro hi
    constructor
    · simp only [btcGetAddress, if_pos hi]
    · simp only [ltcGetAddress, if_pos hi]
  · intro hp hd
    have h0 : ¬ ((0 : Int) < 0) := by omega
    constructor
    · simp only [btcGetAddress, if_neg h0]
      rw [if_pos (by simpa using hp)]
      by_cases hc : ((s.addrCache s.phrase 0).getD "" != "") = true
      · rw [if_pos hc]
        exact ⟨_, rfl⟩
      · rw [if_neg hc, if_neg (by simpa using hd)]
        exact ⟨_, rfl⟩
    · simp only [ltcGetAddress, if_neg h0]
      rw [if_pos (by simpa using hp)]
      by_cases hc : ((s.addrCache s.phrase 0).getD "" != "") = true
      · rw [if_pos hc]
        exact ⟨_, rfl⟩
      · rw [if_neg hc, if_neg (by simpa using hd)]
        exact ⟨_, rfl⟩

/-- Witness for claim C10 at concrete inputs: index `-1` is rejected by
both clients and index `0` produces an address. -/
theorem getAddress_negative_index_rejected_witness :
    ((-1 : Int) < 0 ∧
      btcGetAddress (fun _ _ _ => "addr1") ⟨"ph", Network.testnet, fun _ _ => none⟩ (-1) =
        .error "index must be greater than zero" ∧
      ltcGetAddress (fun _ _ _ => "addr1") ⟨"ph", Network.testnet, fun _ _ => none⟩ (-1) =
        .error "index must be greater than zero") ∧
    ((∃ r, btcGetAddress (fun _ _ _ => "addr1")
        ⟨"ph", Network.testnet, fun _ _ => none⟩ 0 = .ok r) ∧
      (∃ r, ltcGetAddress (fun _ _ _ => "addr1")
        ⟨"ph", Network.testnet, fun _ _ => none⟩ 0 = .ok r)) :=
  ⟨⟨by decide,
      (getAddress_negative_index_rejected (fun _ _ _ => "addr1")
        ⟨"ph", Network.testnet, fun _ _ => none⟩ (-1)).1 (by decide)⟩,
    (getAddress_negative_index_rejected (fun _ _ _ => "addr1")
      ⟨"ph", Network.testnet, fun _ _ => none⟩ (-1)).2 (by decide) (by decide)⟩

/-- Filtering an indexed list to the index window `[off, off + lim)` and
dropping the indices again is the same as a drop followed by a take. -/
theorem enumFrom_filter_range_map (l : List String) :
    ∀ (n off lim : Nat),
      ((l.enumFrom n).filter (fun p => decide (off ≤ p.1 ∧ p.1 < off + lim))).map Prod.snd
        = (l.drop (off - n)).take (off + lim - max n off) := by
  induction l with
  | nil => intro n off lim; simp
  | cons a l ih =>
      intro n off lim
      simp only [List.enumFrom_cons, List.filter_cons]
      by_cases hcond : off ≤ n ∧ n < off + lim
      · have h1 : off - n = 0 := by omega
        have h2 : off - (n + 1) = 0 := by omega
        have h3 : max n off = n := by omega
        have h4 : max (n + 1) off = n + 1 := by omega
        have h5 : off + lim - n = (off + lim - (n + 1)) + 1 := by omega
        rw [if_pos (decide_eq_true hcond), List.map_cons, ih (n + 1) off lim,
          h1, h2, h3, h4, List.drop_zero, List.drop_zero, h5, List.take_succ_cons]
      · rw [if_neg (fun hh => hcond (of_decide_eq_true hh)), ih (n + 1) off lim]
        by_cases hlt : n < off
        · have h1 : off - n = (off - (n + 1)) + 1 := by omega
          have h3 : max n off = off := by omega
          have h4 : max (n + 1) off = off := by omega
          rw [h1, h3, h4, List.drop_succ_cons]
        · have h2 : off - (n + 1) = 0 := by omega
          have h1 : off - n = 0 := by omega
          have h3 : off + lim - max n off = 0 := by omega
          have h4 : off + lim - max (n + 1) off = 0 := by omega
          rw [h1, h2, h3, h4]
          simp

/-- Claim C6 counterexample: with an explicitly provided limit of `0`
(and omitted offset, i.e. effective offset `0`) the Bitcoin client
returns a page of 10 — here the whole one-element list — whereas the
claim, read with the provided values, predicts the empty page
`claimedPage txs 0 0`. -/
theorem btcGetTransactions_zero_limit_diverges :
    (btcGetTransactions ["t0"] (some ⟨none, some 0⟩)).2 = ["t0"] ∧
    claimedPage ["t0"] 0 0 = [] ∧
    (btcGetTransactions ["t0"] (some ⟨none, some 0⟩)).2 ≠ claimedPage ["t0"] 0 0 := by
  refine ⟨by decide, by decide, by decide⟩

/-- Claim C6 (amended): the Bitcoin client's `getTransactions` defaults
an omitted offset to 0 and an omitted — or explicitly zero, since the
source uses `params?.limit || 10` — limit to 10; the returned `txs` are
exactly the transactions whose index `i` in the address's full list
satisfies `offset ≤ i < offset + limit` for the effective values (the
window `drop offset, take limit`), and the returned `total` is the full
transaction count. -/
theorem btcGetTransactions_pagination (txs : List String) (params : Option TxHistoryPage) :
    (btcGetTransactions txs params).1 = txs.length ∧
    (btcGetTransactions txs params).2 = claimedPage txs (effOffset params) (effLimit params) ∧
    claimedPage txs (effOffset params) (effLimit params) =
      (txs.drop (effOffset params)).take (effLimit params) ∧
    effOffset none = 0 ∧
    effLimit none = 10 ∧
    (∀ lm : Option Nat, effOffset (some ⟨none, lm⟩) = 0) ∧
    (∀ lm : Option Nat, ∀ o : Nat, effOffset (some ⟨some o, lm⟩) = o) ∧
    (∀ o : Option Nat, effLimit (some ⟨o, none⟩) = 10) ∧
    (∀ o : Option Nat, effLimit (some ⟨o, some 0⟩) = 10) ∧
    (∀ o : Option Nat, ∀ l : Nat, effLimit (some ⟨o, some (l + 1)⟩) = l + 1) := by
  refine ⟨rfl, rfl, ?_, rfl, rfl, fun lm => rfl, fun lm o => rfl, fun o => rfl,
    fun o => rfl, fun o l => by simp [effLimit]⟩
  have h := enumFrom_filter_range_map txs 0 (effOffset params) (effLimit params)
  have h1 : effOffset params - 0 = effOffset params := by omega
  have h2 : effOffset params + effLimit params - max 0 (effOffset params) =
      effLimit params := by omega
  rw [h1, h2] at h
  exact h

/-- Claim C9: the Cosmos client's `getBalance` without an assets filter
never returns an empty list; when the SDK reports no balances it returns
exactly one entry of the main asset of the current network (ATOM on
mainnet, MUON on testnet) with amount 0. -/
theorem cosmosGetBalance_nonempty (network : Network) (getAsset : String → Option Asset)
    (balances : List CosmosRawBalance) :
    cosmosGetBalance network getAsset balances none ≠ [] ∧
    (balances = [] → cosmosGetBalance network getAsset balances none =
      [⟨getMainAsset network, ⟨0, COSMOS_DECIMAL⟩⟩]) ∧
    getMainAsset Network.mainnet = AssetAtom ∧
    getMainAsset Network.testnet = AssetMuon := by
  refine ⟨?_, ?_, rfl, rfl⟩
  · cases balances with
    | nil => simp [cosmosGetBalance]
    | cons b bs => simp [cosmosGetBalance]
  · intro hb
    subst hb
    simp [cosmosGetBalance]

/-- Witness for claim C9: the empty SDK balance list on mainnet maps to
the single zero-ATOM balance. -/
theorem cosmosGetBalance_nonempty_witness :
    (([] : List CosmosRawBalance) = []) ∧
    cosmosGetBalance Network.mainnet (fun _ => none) [] none =
      [⟨AssetAtom, ⟨0, COSMOS_DECIMAL⟩⟩] :=
  ⟨rfl, (cosmosGetBalance_nonempty Network.mainnet (fun _ => none) []).2.1 rfl⟩

end XchainSpec
